import Mathlib

/-!
Verification of the ChampaMC rank-store against its specification.

The definitions below are shallow embeddings of the TypeScript and SQL
sources of the repository:

* `WebhookService` (webhookService.ts): `MAX_RETRIES`, `sendDiscordNotification`
  retry loop, `sanitizeString` / content sanitization, `isValidWebhookUrl`.
* `OrderModal.tsx`: `calculateRankPrice`, `usernameRegex`, `MAX_FILE_SIZE`
  and the `handleSubmit` validation gates.
* `Admin.tsx`: `isDiscountActive`, `getDiscountedPrice`, `applyDiscountToAllRanks`.
* `supabase.ts`: startup validation of the backend endpoint and key.
* SQL migrations: the `rank_details` view columns `discounted_price` and
  `is_discount_active`, and the `apply_bulk_discount` stored procedure.

Modelling conventions: JavaScript numbers are modelled as exact rationals
(`ℚ`); timestamps are integers (`ℤ`), with `now` passed explicitly where the
code calls `new Date()` / `NOW()`; strings are `List Char`; a fallible
startup step is `Except`; the outcome of each outbound webhook attempt is an
explicit oracle `Nat → AttemptResult`.
-/

namespace ChampaStore

/-! ## Discount calculation -/

/-- Rounding to two decimal places, as performed by SQL `ROUND(x, 2)` and by
JavaScript `toFixed(2)` (modelled on exact rationals; both round half away
from zero, which for the nonnegative quantities involved coincides with
`round`, i.e. half up). -/
def round2 (q : ℚ) : ℚ := ((round (q * 100) : ℤ) : ℚ) / 100

/-- The `RankOption` record as fetched by `OrderModal.tsx` from the `ranks`
table (fields relevant to pricing; `discount` and `discount_expires_at` are
optional in the TypeScript interface). -/
structure RankOption where
  name : String
  price : ℚ
  discount : Option ℤ
  discount_expires_at : Option ℤ
deriving Repr, DecidableEq

/-- `calculateRankPrice` from `OrderModal.tsx` (lines 772-783):
`if (!rank) return 0; if (rank.discount && rank.discount > 0) { const
discountAmount = (rank.price * rank.discount) / 100; return rank.price -
discountAmount; } return rank.price;`.  Note that it reads only
`rank.discount` — it never consults `rank.discount_expires_at` — and it
performs no rounding. -/
def calculateRankPrice : Option RankOption → ℚ
  | none => 0
  | some rank =>
    match rank.discount with
    | some d => if 0 < d then rank.price - rank.price * d / 100 else rank.price
    | none => rank.price

/-- `isDiscountActive` from `Admin.tsx` (lines 778-783):
`if (!discount) return false; if (!expiryDate) return true;
return new Date(expiryDate) > new Date();`.  `now` is the current time. -/
def isDiscountActive (discount : ℤ) (expiryDate : Option ℤ) (now : ℤ) : Bool :=
  if discount = 0 then false
  else
    match expiryDate with
    | none => true
    | some e => decide (now < e)

/-- `getDiscountedPrice` from `Admin.tsx` (lines 760-764):
`if (!discount) return price.toFixed(2);
return ((price * (100 - discount)) / 100).toFixed(2);`. -/
def getDiscountedPrice (price : ℚ) (discount : Option ℤ) : ℚ :=
  match discount with
  | none => round2 price
  | some d => if d = 0 then round2 price else round2 (price * (100 - (d : ℚ)) / 100)

/-- The `is_discount_active` column of the `rank_details` view
(migration 20250413000001, lines 36-42): `discount > 0 AND
(discount_expires_at IS NULL OR discount_expires_at > NOW())`. -/
def rankDetailsIsDiscountActive (discount : ℤ) (expires : Option ℤ) (now : ℤ) : Bool :=
  decide (0 < discount) &&
    (match expires with
     | none => true
     | some e => decide (now < e))

/-- The `discounted_price` column of the `rank_details` view
(migration 20250413000001, lines 29-35): `CASE WHEN discount > 0 AND
(discount_expires_at IS NULL OR discount_expires_at > NOW()) THEN
ROUND(price * (100 - discount) / 100, 2) ELSE price END`. -/
def rankDetailsDiscountedPrice (price : ℚ) (discount : ℤ) (expires : Option ℤ) (now : ℤ) : ℚ :=
  if rankDetailsIsDiscountActive discount expires now then
    round2 (price * (100 - (discount : ℚ)) / 100)
  else price

/-! ## Order-submission validation (`OrderModal.tsx`) -/

/-- Membership in the character class `[a-zA-Z0-9_]` of `usernameRegex`
(`OrderModal.tsx` line 621: `/^[a-zA-Z0-9_]{3,16}$/`). -/
def isUsernameChar (c : Char) : Bool :=
  ('a' ≤ c && c ≤ 'z') || ('A' ≤ c && c ≤ 'Z') || ('0' ≤ c && c ≤ '9') || c = '_'

/-- The anchored match `usernameRegex.test(s)`: between 3 and 16 characters,
all drawn from `[a-zA-Z0-9_]`. -/
def usernameRegexTest (s : List Char) : Bool :=
  decide (3 ≤ s.length) && decide (s.length ≤ 16) && s.all isUsernameChar

/-- JavaScript `String.prototype.trim`, removing whitespace from both ends. -/
def jsTrim (s : List Char) : List Char :=
  ((s.dropWhile Char.isWhitespace).reverse.dropWhile Char.isWhitespace).reverse

/-- The username gate of `handleSubmit` (`OrderModal.tsx` lines 814-819): the
submission is rejected when `formData.username.trim()` is empty, and when
`usernameRegex.test(formData.username.trim())` fails; it passes otherwise. -/
def handleSubmitUsernameOk (raw : List Char) : Bool :=
  !(jsTrim raw).isEmpty && usernameRegexTest (jsTrim raw)

/-- `MAX_FILE_SIZE` from `OrderModal.tsx` line 624: `5 * 1024 * 1024`. -/
def MAX_FILE_SIZE : ℕ := 5 * 1024 * 1024

/-- The payment-proof size gate of `handleSubmit` (`OrderModal.tsx` lines
829-831): `if (paymentProofFile.size > MAX_FILE_SIZE) throw new Error('Image
size should be less than 5MB')`.  Returns `true` when the rejection fires. -/
def fileSizeRejected (size : ℕ) : Bool := decide (MAX_FILE_SIZE < size)

/-! ## Webhook notification dispatch (`webhookService.ts`) -/

/-- What a single `fetch` of the webhook endpoint can produce, as
distinguished by the code: a 2xx response (`response.ok`), a non-2xx
response, a network error thrown by `fetch`, or an `AbortError` from the
per-attempt timeout. -/
inductive AttemptResult where
  | ok : AttemptResult
  | httpError : AttemptResult
  | netError : AttemptResult
  | timeout : AttemptResult
deriving Repr, DecidableEq

/-- `MAX_RETRIES = 2` (webhookService.ts line 280). -/
def MAX_RETRIES : ℕ := 2

/-- `TIMEOUT_MS = 8000` (webhookService.ts line 279). -/
def TIMEOUT_MS : ℕ := 8000

/-- `RETRY_DELAY_MS = 1000` (webhookService.ts line 281). -/
def RETRY_DELAY_MS : ℕ := 1000

/-- One guarded attempt: `fetch` either returns a response (`Except.ok` with
`response.ok : Bool`) or throws (`Except.error`), which the surrounding
`try/catch` intercepts.  The oracle `outcome i` fixes what attempt `i`
produces. -/
def attemptFetch (outcome : ℕ → AttemptResult) (i : ℕ) : Except String Bool :=
  match outcome i with
  | .ok => .ok true
  | .httpError => .ok false
  | .netError => .error "TypeError: Failed to fetch"
  | .timeout => .error "AbortError"

/-- The retry loop of `sendDiscordNotification` (webhookService.ts lines
299-362): `for (let attempt = 0; attempt <= MAX_RETRIES; attempt++)`.  A 2xx
response returns `true` at once; a non-2xx response and a caught exception
are handled identically — return `false` if `attempt === MAX_RETRIES`, else
delay and continue.  `fuel` is the number of loop iterations still permitted
(the loop header allows `MAX_RETRIES + 1`); the `fuel = 0` case is the
`return false` after the loop.  The second component of the result counts
the attempts performed. -/
def webhookAttempts (outcome : ℕ → AttemptResult) : ℕ → ℕ → Bool × ℕ
  | attempt, 0 => (false, attempt)
  | attempt, fuel + 1 =>
    match attemptFetch outcome attempt with
    | .ok true => (true, attempt + 1)
    | .ok false =>
      if attempt = MAX_RETRIES then (false, attempt + 1)
      else webhookAttempts outcome (attempt + 1) fuel
    | .error _ =>
      if attempt = MAX_RETRIES then (false, attempt + 1)
      else webhookAttempts outcome (attempt + 1) fuel

/-- `sendDiscordNotification` (webhookService.ts lines 288-363): when
`isValidWebhookUrl(this.WEBHOOK_URL)` fails it returns `false` without any
network attempt; otherwise it runs the retry loop.  The pair is
(returned boolean, number of attempts performed).  The return type records
that every failure is swallowed: the function yields a boolean for every
oracle, never an exception. -/
def sendDiscordNotification (webhookUrlValid : Bool) (outcome : ℕ → AttemptResult) : Bool × ℕ :=
  if webhookUrlValid then webhookAttempts outcome 0 (MAX_RETRIES + 1) else (false, 0)

/-! ## Content sanitization (`webhookService.ts` `sanitizeString`) -/

/-- The zero-width space `​` inserted by `sanitizeString`. -/
def zwsp : Char := '​'

/-- `str.replace(/[<>]/g, '')`: drop every `<` and `>`. -/
def stripAngles (s : List Char) : List Char :=
  s.filter (fun c => !(c = '<' || c = '>'))

/-- Global replacement of a literal pattern, with JavaScript
`String.prototype.replace` semantics for a `/.../g` literal-text regex:
scan left to right, replace each non-overlapping occurrence, and resume
after the replaced occurrence. -/
def replaceAll (pat rep : List Char) (s : List Char) : List Char :=
  match pat, s with
  | _, [] => []
  | [], c :: rest => c :: rest
  | p0 :: ps, c :: rest =>
    if (p0 :: ps).isPrefixOf (c :: rest) then
      rep ++ replaceAll (p0 :: ps) rep (rest.drop ps.length)
    else
      c :: replaceAll (p0 :: ps) rep rest
termination_by s.length
decreasing_by
· simp only [List.length_cons, List.length_drop]
  omega
· simp only [List.length_cons]
  omega

/-- Substring test: `pat` occurs in the string (at any position).  This is
`String.prototype.includes` restricted to literal patterns, and the notion
of "contains verbatim" used by the sanitization claims. -/
def hasOcc (pat : List Char) : List Char → Bool
  | [] => pat.isPrefixOf []
  | c :: rest => pat.isPrefixOf (c :: rest) || hasOcc pat rest

/-- The pipeline of `sanitizeString` before truncation (webhookService.ts
lines 547-551): remove `<`/`>`, then neutralize `@everyone`, then `@here`. -/
def sanitizeCore (s : List Char) : List Char :=
  replaceAll ("@here".toList) ('@' :: zwsp :: "here".toList)
    (replaceAll ("@everyone".toList) ('@' :: zwsp :: "everyone".toList)
      (stripAngles s))

/-- `sanitizeString` (webhookService.ts lines 543-552): `if (!str) return '';
return str.replace(/[<>]/g, '').replace(/@everyone/g, '@​everyone')
.replace(/@here/g, '@​here').slice(0, 1500);`. -/
def sanitizeString (s : List Char) : List Char :=
  if s = [] then [] else (sanitizeCore s).take 1500

/-- `isValidWebhookUrl` (webhookService.ts lines 453-465): `false` for a
missing or empty URL; otherwise the URL must parse (`new URL(url)`, modelled
by the oracle `parsesAsUrl`) and contain `discord.com/api/webhooks/`. -/
def isValidWebhookUrl (parsesAsUrl : String → Bool) : Option String → Bool
  | none => false
  | some u =>
    if u = "" then false
    else parsesAsUrl u && hasOcc ("discord.com/api/webhooks/".toList) u.toList

/-! ## Startup configuration (`supabase.ts`) -/

/-- A JavaScript truthiness test on an optional environment variable:
`undefined` and the empty string are falsy. -/
def envPresent : Option String → Bool
  | none => false
  | some s => !(s = "")

/-- The created client (the result of `createClient(supabaseUrl,
supabaseAnonKey, ...)`), abstracted to its configuration. -/
structure SupabaseClient where
  url : String
  anonKey : String
deriving Repr, DecidableEq

/-- The module-level startup code of `supabase.ts` (lines 4-20): throw when
`VITE_SUPABASE_URL` is missing/falsy, then throw when
`VITE_SUPABASE_ANON_KEY` is missing/falsy, and only then create the client.
An `Except.error` models the thrown startup exception: no client exists on
that path. -/
def initSupabase (url anonKey : Option String) : Except String SupabaseClient :=
  match url with
  | none => .error "Missing or invalid VITE_SUPABASE_URL environment variable"
  | some u =>
    if u = "" then .error "Missing or invalid VITE_SUPABASE_URL environment variable"
    else
      match anonKey with
      | none => .error "Missing or invalid VITE_SUPABASE_ANON_KEY environment variable"
      | some k =>
        if k = "" then .error "Missing or invalid VITE_SUPABASE_ANON_KEY environment variable"
        else .ok { url := u, anonKey := k }

/-! ## Bulk discount (`Admin.tsx` and migration 20250414000000) -/

/-- A row of the `ranks` table (pricing-relevant columns; the migration adds
`CHECK (discount >= 0 AND discount <= 100)` and `price` is
`DECIMAL(10,2) CHECK (price >= 0)`). -/
structure DbRank where
  name : String
  price : ℚ
  discount : ℤ
  discount_expires_at : Option ℤ
deriving Repr, DecidableEq

/-- The `apply_bulk_discount` stored procedure (migration 20250414000000):
raise when `discount_value < 0 OR discount_value > 100`, otherwise set
`discount` and `discount_expires_at` on every row and return the row
count. -/
def applyBulkDiscountProc (discount_value : ℤ) (expires_at : Option ℤ)
    (ranks : List DbRank) : Except String (List DbRank × ℕ) :=
  if discount_value < 0 ∨ 100 < discount_value then
    .error "Discount must be between 0 and 100"
  else
    .ok (ranks.map (fun r =>
      { name := r.name, price := r.price, discount := discount_value,
        discount_expires_at := expires_at }), ranks.length)

/-- Observable outcome of the client-side handler: either a local rejection
(toast error, no request issued, catalog state carried through unchanged) or
an invocation of the `rpc_apply_bulk_discount` backend call. -/
inductive BulkDiscountOutcome where
  | localReject (message : String) (ranksAfter : List DbRank)
  | rpcInvoked (result : Except String (List DbRank × ℕ))
deriving Repr

/-- `applyDiscountToAllRanks` (`Admin.tsx` lines 798-823): `if (bulkDiscount
< 0 || bulkDiscount > 100) { toast.error("Discount must be between 0 and
100%"); return; }` — only past that guard does it call
`supabase.rpc('rpc_apply_bulk_discount', ...)`. -/
def applyDiscountToAllRanks (bulkDiscount : ℤ) (bulkDiscountExpiry : Option ℤ)
    (ranks : List DbRank) : BulkDiscountOutcome :=
  if bulkDiscount < 0 ∨ 100 < bulkDiscount then
    .localReject "Discount must be between 0 and 100%" ranks
  else
    .rpcInvoked (applyBulkDiscountProc bulkDiscount bulkDiscountExpiry ranks)

end ChampaStore

namespace ChampaStore

/-! ## Helper lemmas: the retry loop -/

/-- When every attempt the loop can reach fails, the loop performs all
`MAX_RETRIES + 1` attempts and reports failure. -/
theorem webhookAttempts_all_fail (outcome : ℕ → AttemptResult)
    (h : ∀ i, i ≤ MAX_RETRIES → outcome i ≠ AttemptResult.ok) :
    webhookAttempts outcome 0 (MAX_RETRIES + 1) = (false, MAX_RETRIES + 1) := by
  have h0 := h 0 (by simp [MAX_RETRIES])
  have h1 := h 1 (by simp [MAX_RETRIES])
  have h2 := h 2 (by simp [MAX_RETRIES])
  cases e0 : outcome 0 <;> cases e1 : outcome 1 <;> cases e2 : outcome 2 <;>
    simp_all [webhookAttempts, attemptFetch, MAX_RETRIES]

/-- When the first success is at (0-indexed) attempt `j ≤ MAX_RETRIES`, the
loop stops with `true` after exactly `j + 1` attempts. -/
theorem webhookAttempts_first_success (outcome : ℕ → AttemptResult) (j : ℕ)
    (hj : j ≤ MAX_RETRIES) (hfail : ∀ i, i < j → outcome i ≠ AttemptResult.ok)
    (hok : outcome j = AttemptResult.ok) :
    webhookAttempts outcome 0 (MAX_RETRIES + 1) = (true, j + 1) := by
  have hj2 : j ≤ 2 := hj
  interval_cases j
  · simp [webhookAttempts, attemptFetch, hok, MAX_RETRIES]
  · have h0 := hfail 0 (by omega)
    cases e0 : outcome 0 <;>
      simp_all [webhookAttempts, attemptFetch, MAX_RETRIES]
  · have h0 := hfail 0 (by omega)
    have h1 := hfail 1 (by omega)
    cases e0 : outcome 0 <;> cases e1 : outcome 1 <;>
      simp_all [webhookAttempts, attemptFetch, MAX_RETRIES]

/-! ## Claim theorems: notification dispatch -/

/-- C1, counterexample to the attempt count as claimed.  The claim reads the
bound `N` as `MAX_RETRIES`, which the code sets to `2`; but against an
endpoint that always returns non-2xx the loop `for (attempt = 0; attempt <=
MAX_RETRIES; ...)` performs `3 = MAX_RETRIES + 1` attempts, not
`MAX_RETRIES`. -/
theorem claim_C1_retry_count_refuted :
    sendDiscordNotification true (fun _ => AttemptResult.httpError) = (false, 3) ∧
    MAX_RETRIES = 2 ∧ (3 : ℕ) ≠ MAX_RETRIES := by
  refine ⟨?_, rfl, by decide⟩
  rfl

/-- C1, amended: with a configured webhook URL, if every delivery attempt
fails then `sendDiscordNotification` performs exactly `MAX_RETRIES + 1`
attempts (one initial attempt plus `MAX_RETRIES` retries) and returns
`false`; and if the endpoint first succeeds on attempt `j + 1` (1-indexed,
`j ≤ MAX_RETRIES`), it returns `true` after exactly `j + 1` attempts and
performs no further attempts. -/
theorem claim_C1_amended (outcome : ℕ → AttemptResult) :
    ((∀ i, i ≤ MAX_RETRIES → outcome i ≠ AttemptResult.ok) →
      sendDiscordNotification true outcome = (false, MAX_RETRIES + 1)) ∧
    (∀ j, j ≤ MAX_RETRIES → (∀ i, i < j → outcome i ≠ AttemptResult.ok) →
      outcome j = AttemptResult.ok →
      sendDiscordNotification true outcome = (true, j + 1)) := by
  constructor
  · intro h
    simpa [sendDiscordNotification] using webhookAttempts_all_fail outcome h
  · intro j hj hfail hok
    simpa [sendDiscordNotification] using
      webhookAttempts_first_success outcome j hj hfail hok

/-- Witness for C1 (amended): concrete runs at an always-failing endpoint
and at one that succeeds on the second attempt. -/
theorem claim_C1_amended_witness :
    sendDiscordNotification true (fun _ => AttemptResult.httpError) = (false, MAX_RETRIES + 1) ∧
    sendDiscordNotification true
      (fun i => if i = 1 then AttemptResult.ok else AttemptResult.netError) = (true, 2) :=
  ⟨(claim_C1_amended _).1 (fun i _ => by decide),
   (claim_C1_amended _).2 1 (by decide)
     (fun i hi => by
       have : i = 0 := by omega
       subst this
       decide)
     (by decide)⟩

/-- C5: the dispatcher always yields a boolean — the embedding's return type
`Bool × ℕ` has no exception channel, and both failure branches of the code
(a non-2xx response, and a caught thrown error such as a network failure or
the per-attempt `AbortError`) feed the same retry-or-`false` logic.  When
every reachable attempt fails — with any mixture of non-2xx, network error
and timeout — the call returns `false` rather than propagating an error. -/
theorem claim_C5_no_throw (valid : Bool) (outcome : ℕ → AttemptResult) :
    ((sendDiscordNotification valid outcome).1 = true ∨
      (sendDiscordNotification valid outcome).1 = false) ∧
    ((∀ i, i ≤ MAX_RETRIES → outcome i ≠ AttemptResult.ok) →
      (sendDiscordNotification valid outcome).1 = false) := by
  constructor
  · cases (sendDiscordNotification valid outcome).1 <;> simp
  · intro h
    cases valid
    · rfl
    · simp [sendDiscordNotification, webhookAttempts_all_fail outcome h]

/-- Witness for C5: a run in which the three failure kinds all occur
(network error, then timeout, then non-2xx) still returns `false`. -/
theorem claim_C5_no_throw_witness :
    (sendDiscordNotification true
      (fun i => if i = 0 then AttemptResult.netError
                else if i = 1 then AttemptResult.timeout
                else AttemptResult.httpError)).1 = false :=
  (claim_C5_no_throw true _).2
    (fun i hi => by
      have : i ≤ 2 := hi
      interval_cases i <;> decide)

/-- C8: a missing (or empty) backend endpoint or backend key makes startup
throw before any client is created (`initSupabase` yields `Except.error` and
no `SupabaseClient` value exists on that path), while with both present a
client is created; and with the webhook endpoint absent,
`isValidWebhookUrl` fails, so every `sendDiscordNotification` call returns
`false` having performed zero attempts. -/
theorem claim_C8_config (url key : Option String) (parses : String → Bool)
    (outcome : ℕ → AttemptResult) :
    (envPresent url = false → ∃ msg, initSupabase url key = Except.error msg) ∧
    (envPresent key = false → ∃ msg, initSupabase url key = Except.error msg) ∧
    (envPresent url = true → envPresent key = true →
      ∃ client, initSupabase url key = Except.ok client) ∧
    sendDiscordNotification (isValidWebhookUrl parses none) outcome = (false, 0) := by
  refine ⟨?_, ?_, ?_, rfl⟩
  · intro h
    rcases url with _ | u
    · exact ⟨_, rfl⟩
    · have hu : u = "" := by simpa [envPresent] using h
      subst hu
      exact ⟨_, rfl⟩
  · intro h
    rcases key with _ | k
    · rcases url with _ | u
      · exact ⟨_, rfl⟩
      · by_cases hu : u = "" <;> simp [initSupabase, hu]
    · have hk : k = "" := by simpa [envPresent] using h
      subst hk
      rcases url with _ | u
      · exact ⟨_, rfl⟩
      · by_cases hu : u = "" <;> simp [initSupabase, hu]
  · intro hu hk
    rcases url with _ | u
    · simp [envPresent] at hu
    · rcases key with _ | k
      · simp [envPresent] at hk
      · have hu' : ¬ u = "" := by simpa [envPresent] using hu
        have hk' : ¬ k = "" := by simpa [envPresent] using hk
        exact ⟨{ url := u, anonKey := k }, by simp [initSupabase, hu', hk']⟩

/-- Witness for C8: a missing backend endpoint is fatal even when the key is
supplied, and a missing webhook URL yields `false` with zero attempts. -/
theorem claim_C8_config_witness :
    (∃ msg, initSupabase none (some "anon-key") = Except.error msg) ∧
    sendDiscordNotification (isValidWebhookUrl (fun _ => true) none)
      (fun _ => AttemptResult.ok) = (false, 0) :=
  ⟨(claim_C8_config none (some "anon-key") (fun _ => true) (fun _ => AttemptResult.ok)).1 rfl,
   (claim_C8_config none (some "anon-key") (fun _ => true) (fun _ => AttemptResult.ok)).2.2.2⟩

/-! ## Helper lemmas: string replacement and substring occurrence

These support the sanitization claim: after
`replace(/@everyone/g, '@\u200Beveryone')` the pattern `@everyone` no longer
occurs, the subsequent `@here` replacement neither reintroduces it nor leaves
an `@here`, and truncation cannot create an occurrence. -/

theorem replaceAll_nil (pat rep : List Char) : replaceAll pat rep [] = [] := by
  cases pat <;> rw [replaceAll]

theorem replaceAll_cons (p0 : Char) (ps rep : List Char) (c : Char) (rest : List Char) :
    replaceAll (p0 :: ps) rep (c :: rest) =
      if (p0 :: ps).isPrefixOf (c :: rest) then
        rep ++ replaceAll (p0 :: ps) rep (rest.drop ps.length)
      else
        c :: replaceAll (p0 :: ps) rep rest := by
  rw [replaceAll]

theorem isPrefixOf_replaceAll (p : List Char) (z : Char) :
    ∀ (n : ℕ) (t q : List Char), t.length ≤ n → '@' ∉ q →
      q.isPrefixOf (replaceAll ('@' :: p) ('@' :: z :: p) t) = true →
      q.isPrefixOf t = true := by
  intro n
  induction n with
  | zero =>
    intro t q ht hq h
    have htn : t = [] := List.length_eq_zero.mp (Nat.le_zero.mp ht)
    subst htn
    rw [replaceAll_nil] at h
    cases q with
    | nil => exact h
    | cons d q' => simp [List.isPrefixOf] at h
  | succ n ih =>
    intro t q ht hq h
    cases t with
    | nil =>
      rw [replaceAll_nil] at h
      cases q with
      | nil => exact h
      | cons d q' => simp [List.isPrefixOf] at h
    | cons c rest =>
      rw [replaceAll_cons] at h
      by_cases hpre : ('@' :: p).isPrefixOf (c :: rest) = true
      · rw [if_pos hpre] at h
        cases q with
        | nil => simp [List.isPrefixOf]
        | cons d q' =>
          have hd : d = '@' := by
            simp only [List.cons_append, List.isPrefixOf, Bool.and_eq_true, beq_iff_eq] at h
            exact h.1
          exact absurd (hd ▸ List.mem_cons_self d q') hq
      · rw [if_neg hpre] at h
        cases q with
        | nil => simp [List.isPrefixOf]
        | cons d q' =>
          simp only [List.isPrefixOf, Bool.and_eq_true, beq_iff_eq] at h ⊢
          refine ⟨h.1, ?_⟩
          have hrest : rest.length ≤ n := by
            simp only [List.length_cons] at ht
            omega
          have hq' : '@' ∉ q' := fun hm => hq (List.mem_cons_of_mem d hm)
          exact ih rest q' hrest hq' h.2

theorem pat_isPrefixOf_replaceAll (p : List Char) (z : Char)
    (hpa : '@' ∉ p) (t : List Char)
    (h : ('@' :: p).isPrefixOf (replaceAll ('@' :: p) ('@' :: z :: p) t) = true) :
    ('@' :: p).isPrefixOf t = true := by
  cases t with
  | nil =>
    rw [replaceAll_nil] at h
    simp [List.isPrefixOf] at h
  | cons c rest =>
    by_cases hpre : ('@' :: p).isPrefixOf (c :: rest) = true
    · exact hpre
    · rw [replaceAll_cons, if_neg hpre] at h
      simp only [List.isPrefixOf, Bool.and_eq_true, beq_iff_eq] at h ⊢
      exact absurd (by
        simp only [List.isPrefixOf, Bool.and_eq_true, beq_iff_eq]
        exact ⟨h.1, isPrefixOf_replaceAll p z rest.length rest p le_rfl hpa h.2⟩) hpre

theorem hasOcc_append_no_at (p x w : List Char) (hx : '@' ∉ x) :
    hasOcc ('@' :: p) (x ++ w) = hasOcc ('@' :: p) w := by
  induction x with
  | nil => rfl
  | cons c x' ih =>
    have hc : ('@' == c) = false := by
      refine beq_eq_false_iff_ne.mpr ?_
      intro hcc
      exact hx (hcc ▸ List.mem_cons_self c x')
    have hx' : '@' ∉ x' := fun hm => hx (List.mem_cons_of_mem c hm)
    calc hasOcc ('@' :: p) ((c :: x') ++ w)
        = (('@' :: p).isPrefixOf (c :: (x' ++ w)) || hasOcc ('@' :: p) (x' ++ w)) := rfl
      _ = hasOcc ('@' :: p) w := by
          simp only [List.isPrefixOf, hc, Bool.false_and, Bool.false_or]
          exact ih hx'

theorem hasOcc_rep_append (q0 : Char) (qs p2 w : List Char) (z : Char)
    (hq : q0 ≠ z) (hz : z ≠ '@') (hp2 : '@' ∉ p2) :
    hasOcc ('@' :: q0 :: qs) (('@' :: z :: p2) ++ w) = hasOcc ('@' :: q0 :: qs) w := by
  have e1 : ('@' :: z :: p2) ++ w = '@' :: z :: (p2 ++ w) := rfl
  rw [e1]
  have hqz : (q0 == z) = false := beq_eq_false_iff_ne.mpr hq
  have hza : ('@' == z) = false := beq_eq_false_iff_ne.mpr (Ne.symm hz)
  calc hasOcc ('@' :: q0 :: qs) ('@' :: z :: (p2 ++ w))
      = (('@' :: q0 :: qs).isPrefixOf ('@' :: z :: (p2 ++ w)) ||
         (('@' :: q0 :: qs).isPrefixOf (z :: (p2 ++ w)) ||
          hasOcc ('@' :: q0 :: qs) (p2 ++ w))) := rfl
    _ = hasOcc ('@' :: q0 :: qs) (p2 ++ w) := by
        simp only [List.isPrefixOf, hqz, hza, beq_self_eq_true, Bool.true_and,
          Bool.false_and, Bool.and_false, Bool.false_or]
    _ = hasOcc ('@' :: q0 :: qs) w := hasOcc_append_no_at (q0 :: qs) p2 w hp2

theorem hasOcc_replaceAll_self (q0 : Char) (qs : List Char) (z : Char)
    (hpa : '@' ∉ q0 :: qs) (hz : z ≠ '@') (hzp : z ∉ q0 :: qs) :
    ∀ (n : ℕ) (t : List Char), t.length ≤ n →
      hasOcc ('@' :: q0 :: qs)
        (replaceAll ('@' :: q0 :: qs) ('@' :: z :: q0 :: qs) t) = false := by
  intro n
  induction n with
  | zero =>
    intro t ht
    have htn : t = [] := List.length_eq_zero.mp (Nat.le_zero.mp ht)
    subst htn
    rw [replaceAll_nil]
    simp [hasOcc, List.isPrefixOf]
  | succ n ih =>
    intro t ht
    cases t with
    | nil =>
      rw [replaceAll_nil]
      simp [hasOcc, List.isPrefixOf]
    | cons c rest =>
      rw [replaceAll_cons]
      by_cases hpre : ('@' :: q0 :: qs).isPrefixOf (c :: rest) = true
      · rw [if_pos hpre]
        have hq0z : q0 ≠ z := fun h => hzp (h ▸ List.mem_cons_self q0 qs)
        rw [hasOcc_rep_append q0 qs (q0 :: qs) _ z hq0z hz hpa]
        exact ih _ (by
          simp only [List.length_cons, List.length_drop] at ht ⊢
          omega)
      · rw [if_neg hpre]
        have hrec := ih rest (by
          simp only [List.length_cons] at ht
          omega)
        cases hfb : (('@' :: q0 :: qs).isPrefixOf
            (c :: replaceAll ('@' :: q0 :: qs) ('@' :: z :: q0 :: qs) rest)) with
        | false =>
          calc hasOcc ('@' :: q0 :: qs)
                (c :: replaceAll ('@' :: q0 :: qs) ('@' :: z :: q0 :: qs) rest)
              = (('@' :: q0 :: qs).isPrefixOf
                  (c :: replaceAll ('@' :: q0 :: qs) ('@' :: z :: q0 :: qs) rest) ||
                 hasOcc ('@' :: q0 :: qs)
                  (replaceAll ('@' :: q0 :: qs) ('@' :: z :: q0 :: qs) rest)) := rfl
            _ = false := by rw [hfb, hrec, Bool.false_or]
        | true =>
          exfalso
          simp only [List.isPrefixOf, Bool.and_eq_true, beq_iff_eq] at hfb
          have : ('@' :: q0 :: qs).isPrefixOf (c :: rest) = true := by
            simp only [List.isPrefixOf, Bool.and_eq_true, beq_iff_eq]
            exact ⟨hfb.1, isPrefixOf_replaceAll (q0 :: qs) z rest.length rest
              (q0 :: qs) le_rfl hpa hfb.2⟩
          exact hpre this

theorem hasOcc_of_drop (pat : List Char) :
    ∀ (x : List Char) (k : ℕ), hasOcc pat (x.drop k) = true → hasOcc pat x = true := by
  intro x
  induction x with
  | nil => intro k h; simpa using h
  | cons c x' ih =>
    intro k h
    cases k with
    | zero => simpa using h
    | succ k =>
      have := ih k (by simpa using h)
      calc hasOcc pat (c :: x')
          = (pat.isPrefixOf (c :: x') || hasOcc pat x') := rfl
        _ = true := by rw [this, Bool.or_true]

theorem hasOcc_of_take (pat : List Char) :
    ∀ (x : List Char) (n : ℕ), hasOcc pat (x.take n) = true → hasOcc pat x = true := by
  intro x
  induction x with
  | nil => intro n h; simpa using h
  | cons c x' ih =>
    intro n h
    cases n with
    | zero =>
      simp only [List.take_zero] at h
      cases pat with
      | nil => rfl
      | cons p0 ps => simp [hasOcc, List.isPrefixOf] at h
    | succ n =>
      simp only [List.take_succ_cons] at h
      rcases Bool.or_eq_true_iff.mp h with h1 | h2
      · have hpp : pat <+: c :: x'.take n := List.isPrefixOf_iff_prefix.mp h1
        have : pat <+: c :: x' := by
          refine hpp.trans ?_
          exact List.cons_prefix_cons.mpr ⟨rfl, List.take_prefix n x'⟩
        have := List.isPrefixOf_iff_prefix.mpr this
        calc hasOcc pat (c :: x') = (pat.isPrefixOf (c :: x') || hasOcc pat x') := rfl
          _ = true := by rw [this, Bool.true_or]
      · have := ih n h2
        calc hasOcc pat (c :: x') = (pat.isPrefixOf (c :: x') || hasOcc pat x') := rfl
          _ = true := by rw [this, Bool.or_true]

theorem hasOcc_replaceAll_other (q0 : Char) (qs p2 : List Char) (z : Char)
    (hp1a : '@' ∉ q0 :: qs) (hq0 : q0 ≠ z) (hp2a : '@' ∉ p2) (hz : z ≠ '@') :
    ∀ (n : ℕ) (t : List Char), t.length ≤ n →
      hasOcc ('@' :: q0 :: qs) t = false →
      hasOcc ('@' :: q0 :: qs) (replaceAll ('@' :: p2) ('@' :: z :: p2) t) = false := by
  intro n
  induction n with
  | zero =>
    intro t ht h0
    have htn : t = [] := List.length_eq_zero.mp (Nat.le_zero.mp ht)
    subst htn
    rw [replaceAll_nil]
    exact h0
  | succ n ih =>
    intro t ht h0
    cases t with
    | nil =>
      rw [replaceAll_nil]
      exact h0
    | cons c rest =>
      have hsplit : ('@' :: q0 :: qs).isPrefixOf (c :: rest) = false ∧
          hasOcc ('@' :: q0 :: qs) rest = false := by
        have : (('@' :: q0 :: qs).isPrefixOf (c :: rest) ||
            hasOcc ('@' :: q0 :: qs) rest) = false := h0
        exact ⟨Bool.or_eq_false_iff.mp this |>.1, Bool.or_eq_false_iff.mp this |>.2⟩
      rw [replaceAll_cons]
      by_cases hpre : ('@' :: p2).isPrefixOf (c :: rest) = true
      · rw [if_pos hpre]
        rw [hasOcc_rep_append q0 qs p2 _ z hq0 hz hp2a]
        refine ih _ ?_ ?_
        · simp only [List.length_cons, List.length_drop] at ht ⊢
          omega
        · cases hfd : hasOcc ('@' :: q0 :: qs) (rest.drop p2.length) with
          | false => rfl
          | true => exact absurd (hasOcc_of_drop _ rest p2.length hfd) (by
              rw [hsplit.2]; exact fun h => nomatch h)
      · rw [if_neg hpre]
        have hrec := ih rest (by simp only [List.length_cons] at ht; omega) hsplit.2
        cases hfb : (('@' :: q0 :: qs).isPrefixOf
            (c :: replaceAll ('@' :: p2) ('@' :: z :: p2) rest)) with
        | false =>
          calc hasOcc ('@' :: q0 :: qs)
                (c :: replaceAll ('@' :: p2) ('@' :: z :: p2) rest)
              = (('@' :: q0 :: qs).isPrefixOf
                  (c :: replaceAll ('@' :: p2) ('@' :: z :: p2) rest) ||
                 hasOcc ('@' :: q0 :: qs)
                  (replaceAll ('@' :: p2) ('@' :: z :: p2) rest)) := rfl
            _ = false := by rw [hfb, hrec, Bool.false_or]
        | true =>
          exfalso
          simp only [List.isPrefixOf, Bool.and_eq_true, beq_iff_eq] at hfb
          have : ('@' :: q0 :: qs).isPrefixOf (c :: rest) = true := by
            simp only [List.isPrefixOf, Bool.and_eq_true, beq_iff_eq]
            exact ⟨hfb.1, isPrefixOf_replaceAll p2 z rest.length rest
              (q0 :: qs) le_rfl hp1a hfb.2⟩
          rw [hsplit.1] at this
          exact nomatch this

/-- `hasOcc` agrees with the mathematical substring relation. -/
theorem hasOcc_iff_isInfix (pat : List Char) :
    ∀ s : List Char, hasOcc pat s = true ↔ pat <:+: s := by
  intro s
  induction s with
  | nil =>
    constructor
    · intro h
      have : pat <+: ([] : List Char) := List.isPrefixOf_iff_prefix.mp h
      exact this.isInfix
    · intro h
      have : pat = [] := List.eq_nil_of_infix_nil h
      subst this
      rfl
  | cons c rest ih =>
    rw [List.infix_cons_iff]
    constructor
    · intro h
      rcases Bool.or_eq_true_iff.mp h with h1 | h2
      · exact Or.inl (List.isPrefixOf_iff_prefix.mp h1)
      · exact Or.inr (ih.mp h2)
    · rintro (h1 | h2)
      · calc hasOcc pat (c :: rest) = (pat.isPrefixOf (c :: rest) || hasOcc pat rest) := rfl
          _ = true := by rw [List.isPrefixOf_iff_prefix.mpr h1, Bool.true_or]
      · calc hasOcc pat (c :: rest) = (pat.isPrefixOf (c :: rest) || hasOcc pat rest) := rfl
          _ = true := by rw [ih.mpr h2, Bool.or_true]

/-! ## Helper lemmas: rounding -/

/-- `round` on rationals is monotone. -/
theorem round_rat_mono {a b : ℚ} (h : a ≤ b) : round a ≤ round b := by
  rw [round_eq, round_eq]
  exact Int.floor_le_floor (by linarith)

/-! ## Claim theorems: discounts and prices -/

/-- C4: in both the admin panel's `isDiscountActive` and the `rank_details`
view's `is_discount_active`, a discount with a past (or present) expiry
timestamp is never reported active regardless of its percentage; one with a
positive percentage and no expiry is always active; and for percentages in
the schema-enforced range `0 ≤ d` the two implementations agree and activity
holds exactly when `0 < d` and the expiry is unset or in the future. -/
theorem claim_C4_discount_activity (d : ℤ) (expiry : Option ℤ) (now : ℤ)
    (hd : 0 ≤ d) :
    (isDiscountActive d expiry now = true ↔
      (0 < d ∧ (expiry = none ∨ ∃ e, expiry = some e ∧ now < e))) ∧
    (rankDetailsIsDiscountActive d expiry now = isDiscountActive d expiry now) ∧
    (∀ e, expiry = some e → e ≤ now →
      isDiscountActive d expiry now = false ∧
      rankDetailsIsDiscountActive d expiry now = false) := by
  rcases expiry with _ | e
  · by_cases h0 : d = 0
    · simp [isDiscountActive, rankDetailsIsDiscountActive, h0]
    · simp [isDiscountActive, rankDetailsIsDiscountActive, h0]
      omega
  · by_cases h0 : d = 0
    · simp [isDiscountActive, rankDetailsIsDiscountActive, h0]
    · by_cases hlt : now < e
      · simp [isDiscountActive, rankDetailsIsDiscountActive, h0, hlt]
        omega
      · simp [isDiscountActive, rankDetailsIsDiscountActive, h0, hlt]

/-- Witness for C4: a 25% discount that expired at time 100, evaluated at
time 200, is inactive in both implementations. -/
theorem claim_C4_discount_activity_witness :
    isDiscountActive 25 (some 100) 200 = false ∧
    rankDetailsIsDiscountActive 25 (some 100) 200 = false :=
  (claim_C4_discount_activity 25 (some 100) 200 (by decide)).2.2 100 rfl (by decide)

/-- C2 (divergence at the failing input): for a rank with base price 10, a
25% discount and an expiry already in the past (expiry 100, now 200), the
admin panel and the `rank_details` view report the discount inactive and the
view prices the rank at the undiscounted 10 — but the checkout path
`OrderModal.calculateRankPrice`, which never reads `discount_expires_at`,
still charges the discounted 7.5. -/
theorem claim_C2_expired_discount_divergence :
    isDiscountActive 25 (some 100) 200 = false ∧
    rankDetailsIsDiscountActive 25 (some 100) 200 = false ∧
    rankDetailsDiscountedPrice 10 25 (some 100) 200 = 10 ∧
    calculateRankPrice
      (some { name := "VIP", price := 10, discount := some 25,
              discount_expires_at := some 100 }) = 15 / 2 ∧
    (15 / 2 : ℚ) ≠ 10 := by
  refine ⟨rfl, rfl, ?_, ?_, by norm_num⟩
  · simp [rankDetailsDiscountedPrice, rankDetailsIsDiscountActive]
  · norm_num [calculateRankPrice]

/-- C3, counterexample.  `OrderModal.calculateRankPrice` performs no
rounding: at base price 1/4 (0.25) with a 50% discount it returns exactly
1/8 = 0.125, while `round(x·(100−p)/100, 2)` is 0.13.  Moreover "effective
price = base price iff p = 0" fails at price 0: a 25% discount also leaves
the price unchanged (`getDiscountedPrice 0 (some 25) = 0`). -/
theorem claim_C3_rounding_refuted :
    calculateRankPrice
      (some { name := "X", price := 1/4, discount := some 50,
              discount_expires_at := none }) = 1/8 ∧
    round2 ((1/4 : ℚ) * (100 - 50) / 100) = 13/100 ∧
    ((1/8 : ℚ) ≠ 13/100) ∧
    getDiscountedPrice 0 (some 25) = 0 ∧ ((25 : ℤ) ≠ 0) := by
  refine ⟨by norm_num [calculateRankPrice], ?_, by norm_num, ?_, by decide⟩
  · have : ((1/4 : ℚ) * (100 - 50) / 100) * 100 = 25/2 := by norm_num
    rw [round2, this]
    norm_num [round_eq]
  · have : ((0 : ℚ) * (100 - (25 : ℤ)) / 100) * 100 = 0 := by norm_num
    rw [getDiscountedPrice]
    simp only [if_neg (by decide : ¬ (25 : ℤ) = 0)]
    rw [round2, this]
    norm_num

/-- C3, amended: for `0 ≤ p ≤ 100` and `0 ≤ x`, the checkout price
`calculateRankPrice` equals `x·(100−p)/100` exactly, with no rounding; the
admin panel's `getDiscountedPrice` and the `rank_details` view (when the
discount is active) equal `round(x·(100−p)/100, 2)`; each is at most `x`
(for the rounded forms, when `x` is a whole number of cents, as the
`DECIMAL(10,2)` price column guarantees); and the effective price equals `x`
whenever `p = 0` — but not only then, as the counterexample at `x = 0`
shows. -/
theorem claim_C3_amended (x : ℚ) (p : ℤ) (hx : 0 ≤ x) (hp0 : 0 ≤ p)
    (hp1 : p ≤ 100) :
    calculateRankPrice
      (some { name := "r", price := x, discount := some p,
              discount_expires_at := none }) = x * (100 - (p : ℚ)) / 100 ∧
    x * (100 - (p : ℚ)) / 100 ≤ x ∧
    (p = 0 → calculateRankPrice
      (some { name := "r", price := x, discount := some p,
              discount_expires_at := none }) = x) ∧
    getDiscountedPrice x (some p) = round2 (x * (100 - (p : ℚ)) / 100) ∧
    (∀ expiry now, rankDetailsIsDiscountActive p expiry now = true →
      rankDetailsDiscountedPrice x p expiry now = round2 (x * (100 - (p : ℚ)) / 100)) ∧
    (∀ cents : ℕ, x = (cents : ℚ) / 100 →
      round2 (x * (100 - (p : ℚ)) / 100) ≤ x) := by
  have hple : ((p : ℚ)) ≤ 100 := by exact_mod_cast hp1
  have hpge : (0 : ℚ) ≤ (p : ℚ) := by exact_mod_cast hp0
  have hle : x * (100 - (p : ℚ)) / 100 ≤ x := by
    rw [div_le_iff₀ (by norm_num : (0 : ℚ) < 100)]
    have := mul_le_mul_of_nonneg_left (by linarith : (100 - (p : ℚ)) ≤ 100) hx
    linarith
  refine ⟨?_, hle, ?_, ?_, ?_, ?_⟩
  · by_cases hp : 0 < p
    · simp only [calculateRankPrice, if_pos hp]
      field_simp
      ring
    · have hz : p = 0 := by omega
      subst hz
      simp [calculateRankPrice]
  · intro hz
    subst hz
    simp [calculateRankPrice]
  · by_cases hp : p = 0
    · subst hp
      simp [getDiscountedPrice]
    · simp [getDiscountedPrice, hp]
  · intro expiry now h
    simp [rankDetailsDiscountedPrice, h]
  · intro cents hc
    have h100 : x * (100 - (p : ℚ)) / 100 * 100 ≤ (cents : ℚ) := by
      have : x * 100 = (cents : ℚ) := by rw [hc]; field_simp
      calc x * (100 - (p : ℚ)) / 100 * 100 ≤ x * 100 := by
            rw [div_mul_cancel₀ _ (by norm_num : (100 : ℚ) ≠ 0)]
            have := mul_le_mul_of_nonneg_left (by linarith : (100 - (p : ℚ)) ≤ 100) hx
            linarith
        _ = (cents : ℚ) := this
    have hr : round (x * (100 - (p : ℚ)) / 100 * 100) ≤ (cents : ℤ) := by
      have := round_rat_mono h100
      rwa [round_natCast] at this
    rw [round2]
    have h2 : ((round (x * (100 - (p : ℚ)) / 100 * 100) : ℤ) : ℚ) ≤ (cents : ℚ) := by
      exact_mod_cast hr
    linarith [h2, hc.le, hc.ge]

/-- Witness for C3 (amended): base price 5 with a 20% discount is charged
exactly `5·80/100 = 4` at checkout, and the effective price does not exceed
the base price. -/
theorem claim_C3_amended_witness :
    calculateRankPrice
      (some { name := "r", price := 5, discount := some 20,
              discount_expires_at := none }) = 5 * (100 - ((20 : ℤ) : ℚ)) / 100 ∧
    5 * (100 - ((20 : ℤ) : ℚ)) / 100 ≤ 5 :=
  ⟨(claim_C3_amended 5 20 (by norm_num) (by norm_num) (by norm_num)).1,
   (claim_C3_amended 5 20 (by norm_num) (by norm_num) (by norm_num)).2.1⟩

/-! ## Claim theorems: admin bulk discount and order validation -/

/-- C9: a bulk discount outside 0–100 is rejected by the local guard in
`applyDiscountToAllRanks` with the user-visible toast message, the RPC is
not invoked, and the catalog rows are carried through unchanged; the stored
procedure would independently reject the same range error. -/
theorem claim_C9_bulk_discount (d : ℤ) (e : Option ℤ) (ranks : List DbRank)
    (h : d < 0 ∨ 100 < d) :
    applyDiscountToAllRanks d e ranks =
      BulkDiscountOutcome.localReject "Discount must be between 0 and 100%" ranks ∧
    applyBulkDiscountProc d e ranks = Except.error "Discount must be between 0 and 100" := by
  constructor
  · simp [applyDiscountToAllRanks, h]
  · simp [applyBulkDiscountProc, h]

/-- Witness for C9: a 101% bulk discount is rejected locally, leaving a
one-rank catalog untouched. -/
theorem claim_C9_bulk_discount_witness :
    applyDiscountToAllRanks 101 none
      [{ name := "VIP", price := 5, discount := 0, discount_expires_at := none }] =
      BulkDiscountOutcome.localReject "Discount must be between 0 and 100%"
        [{ name := "VIP", price := 5, discount := 0, discount_expires_at := none }] :=
  (claim_C9_bulk_discount 101 none
    [{ name := "VIP", price := 5, discount := 0, discount_expires_at := none }]
    (Or.inr (by decide))).1

/-- The character class `[a-zA-Z0-9_]` contains exactly the ASCII letters,
the ASCII digits, and the underscore. -/
theorem isUsernameChar_iff (c : Char) :
    isUsernameChar c = true ↔ (c.isAlpha = true ∨ c.isDigit = true ∨ c = '_') := by
  simp only [isUsernameChar, Char.isAlpha, Char.isUpper, Char.isLower, Char.isDigit,
    Bool.or_eq_true, Bool.and_eq_true, decide_eq_true_eq, ge_iff_le, Char.le_def]
  constructor
  · rintro (((⟨h1, h2⟩ | ⟨h1, h2⟩) | ⟨h1, h2⟩) | h)
    · exact Or.inl (Or.inr ⟨h1, h2⟩)
    · exact Or.inl (Or.inl ⟨h1, h2⟩)
    · exact Or.inr (Or.inl ⟨h1, h2⟩)
    · exact Or.inr (Or.inr h)
  · rintro ((⟨h1, h2⟩ | ⟨h1, h2⟩) | ⟨h1, h2⟩ | h)
    · exact Or.inl (Or.inl (Or.inr ⟨h1, h2⟩))
    · exact Or.inl (Or.inl (Or.inl ⟨h1, h2⟩))
    · exact Or.inl (Or.inr ⟨h1, h2⟩)
    · exact Or.inr h

/-- C7: `usernameRegex.test` accepts exactly the strings of 3 to 16
characters drawn from ASCII letters, digits and underscore — all other
strings (empty, too long, or containing a space or other symbol) fail the
test; and the `handleSubmit` username gate is exactly this test applied to
the trimmed input (the separate empty-string rejection is subsumed, as the
empty string is shorter than 3). -/
theorem claim_C7_username (s : List Char) :
    (usernameRegexTest s = true ↔
      (3 ≤ s.length ∧ s.length ≤ 16 ∧
        ∀ c ∈ s, (c.isAlpha = true ∨ c.isDigit = true ∨ c = '_'))) ∧
    handleSubmitUsernameOk s = usernameRegexTest (jsTrim s) := by
  constructor
  · simp only [usernameRegexTest, Bool.and_eq_true, decide_eq_true_eq,
      List.all_eq_true, and_assoc]
    constructor
    · rintro ⟨h1, h2, h3⟩
      exact ⟨h1, h2, fun c hc => (isUsernameChar_iff c).mp (h3 c hc)⟩
    · rintro ⟨h1, h2, h3⟩
      exact ⟨h1, h2, fun c hc => (isUsernameChar_iff c).mpr (h3 c hc)⟩
  · cases h : jsTrim s with
    | nil => simp [handleSubmitUsernameOk, usernameRegexTest, h]
    | cons c rest => simp [handleSubmitUsernameOk, h]

/-- C10: the payment-proof size rejection fires exactly when the file is
strictly larger than `MAX_FILE_SIZE = 5·1024·1024` bytes; a file of exactly
5 MB passes the check. -/
theorem claim_C10_file_size (size : ℕ) :
    (fileSizeRejected size = true ↔ 5 * 1024 * 1024 < size) ∧
    fileSizeRejected (5 * 1024 * 1024) = false := by
  constructor
  · simp [fileSizeRejected, MAX_FILE_SIZE]
  · decide

/-- C6: for every input string, the sanitized output contains neither
`@everyone` nor `@here` as a substring, its length never exceeds the 1500
character cap, and the output is exactly the (replacement-expanded) field
truncated to that cap. -/
theorem claim_C6_sanitizer (s : List Char) :
    hasOcc ("@everyone".toList) (sanitizeString s) = false ∧
    hasOcc ("@here".toList) (sanitizeString s) = false ∧
    ¬ ("@everyone".toList <:+: sanitizeString s) ∧
    ¬ ("@here".toList <:+: sanitizeString s) ∧
    (sanitizeString s).length ≤ 1500 ∧
    (sanitizeString s).length = min 1500 (sanitizeCore s).length := by
  have eqE : "@everyone".toList = '@' :: 'e' :: "veryone".toList := by decide
  have eqE2 : "everyone".toList = 'e' :: "veryone".toList := by decide
  have eqH : "@here".toList = '@' :: 'h' :: "ere".toList := by decide
  have eqH2 : "here".toList = 'h' :: "ere".toList := by decide
  by_cases hs : s = []
  · subst hs
    have hcore : sanitizeCore ([] : List Char) = [] := by
      simp only [sanitizeCore, stripAngles, List.filter_nil, replaceAll_nil]
    refine ⟨?_, ?_, ?_, ?_, ?_, ?_⟩
    · rw [eqE]; rfl
    · rw [eqH]; rfl
    · intro h
      have : "@everyone".toList = [] := List.eq_nil_of_infix_nil h
      simp at this
    · intro h
      have : "@here".toList = [] := List.eq_nil_of_infix_nil h
      simp at this
    · simp [sanitizeString]
    · simp [sanitizeString, hcore]
  · have hstr : sanitizeString s = (sanitizeCore s).take 1500 := by
      rw [sanitizeString, if_neg hs]
    have hE1 : hasOcc ('@' :: 'e' :: "veryone".toList)
        (replaceAll ('@' :: 'e' :: "veryone".toList)
          ('@' :: zwsp :: 'e' :: "veryone".toList) (stripAngles s)) = false :=
      hasOcc_replaceAll_self 'e' ("veryone".toList) zwsp (by decide) (by decide)
        (by decide) _ _ le_rfl
    have hEcore : hasOcc ("@everyone".toList) (sanitizeCore s) = false := by
      rw [sanitizeCore, eqE, eqE2, eqH, eqH2]
      exact hasOcc_replaceAll_other 'e' ("veryone".toList) ('h' :: "ere".toList) zwsp
        (by decide) (by decide) (by decide) (by decide) _ _ le_rfl hE1
    have hHcore : hasOcc ("@here".toList) (sanitizeCore s) = false := by
      rw [sanitizeCore, eqE, eqE2, eqH, eqH2]
      exact hasOcc_replaceAll_self 'h' ("ere".toList) zwsp (by decide) (by decide)
        (by decide) _ _ le_rfl
    have hEtake : hasOcc ("@everyone".toList) (sanitizeString s) = false := by
      rw [hstr]
      cases hx : hasOcc ("@everyone".toList) ((sanitizeCore s).take 1500) with
      | false => rfl
      | true =>
        rw [hasOcc_of_take _ (sanitizeCore s) 1500 hx] at hEcore
        exact nomatch hEcore
    have hHtake : hasOcc ("@here".toList) (sanitizeString s) = false := by
      rw [hstr]
      cases hx : hasOcc ("@here".toList) ((sanitizeCore s).take 1500) with
      | false => rfl
      | true =>
        rw [hasOcc_of_take _ (sanitizeCore s) 1500 hx] at hHcore
        exact nomatch hHcore
    refine ⟨hEtake, hHtake, ?_, ?_, ?_, ?_⟩
    · intro h
      rw [(hasOcc_iff_isInfix _ _).mpr h] at hEtake
      exact nomatch hEtake
    · intro h
      rw [(hasOcc_iff_isInfix _ _).mpr h] at hHtake
      exact nomatch hHtake
    · rw [hstr, List.length_take]
      exact Nat.min_le_left _ _
    · rw [hstr, List.length_take]

end ChampaStore
